import Mathlib

/-!
Verification development for the retrieval-augmented query and conversation
engine of the sf-dining-rag repository.  The Python sources are shallowly
embedded: text is `List Char`, floats (timestamps, similarity scores) are
rationals, fallible operations return `Option`/`Except`, and the one
potentially non-terminating loop (the greedy word-pack fallback in
`chunk_text`) is given explicit fuel.
-/

set_option maxHeartbeats 1000000

namespace SfDiningRag

/-! ## Text primitives (src/chunking.py helpers)

Characters are classified as in the Python regexes used by the code:
`\w` (word characters), the sentence delimiters `[.!?]`, the secondary
delimiters `[,;:]`, and ASCII whitespace as used by `str.strip` /
`str.split`. -/

/-- ASCII model of the Python regex class `\w`. -/
def isWordChar (c : Char) : Bool :=
  ('a' ≤ c && c ≤ 'z') || ('A' ≤ c && c ≤ 'Z') || ('0' ≤ c && c ≤ '9') || c = '_'

/-- ASCII whitespace, as recognised by Python `str.strip()` and `str.split()`. -/
def isPySpace (c : Char) : Bool :=
  c = ' ' || c = '\t' || c = '\n' || c = '\r' || c.toNat = 11 || c.toNat = 12

/-- The sentence delimiters of `re.split(r'[.!?]+', text)`. -/
def isSentDelim (c : Char) : Bool :=
  c = '.' || c = '!' || c = '?'

/-- The secondary delimiters of `re.split(r'[,;:]', sentence)`. -/
def isSecDelim (c : Char) : Bool :=
  c = ',' || c = ';' || c = ':'

/-- Split a character list at every delimiter character (delimiters removed,
possibly empty pieces kept); the common core of the `re.split` calls in
`chunk_text`.  Always returns a non-empty list of pieces. -/
def splitP (p : Char → Bool) : List Char → List (List Char)
  | [] => [[]]
  | c :: cs =>
    if p c then [] :: splitP p cs
    else
      match splitP p cs with
      | [] => [[c]]
      | w :: ws => (c :: w) :: ws

/-- The maximal runs of word characters of a text: the value of
`re.findall(r'\w+', text)`. -/
def wordsOf (s : List Char) : List (List Char) :=
  (splitP (fun c => !isWordChar c) s).filter (fun w => !w.isEmpty)

/-- `count_tokens` (src/chunking.py:14-26): `len(re.findall(r'\w+', text))`. -/
def count_tokens (s : List Char) : Nat :=
  (wordsOf s).length

/-- Python `str.lstrip()` on ASCII whitespace. -/
def lstrip (s : List Char) : List Char :=
  s.dropWhile isPySpace

/-- Python `str.strip()` on ASCII whitespace. -/
def strip (s : List Char) : List Char :=
  ((lstrip s).reverse.dropWhile isPySpace).reverse

/-- Python `' '.join(parts)`. -/
def joinSp (parts : List (List Char)) : List Char :=
  match parts with
  | [] => []
  | w :: ws => w ++ (ws.map (fun x => ' ' :: x)).flatten

/-- Python `part.split()`: maximal runs of non-whitespace characters. -/
def splitWS (s : List Char) : List (List Char) :=
  (splitP isPySpace s).filter (fun w => !w.isEmpty)

/-! ### Lemmas about `splitP` and `wordsOf` -/

theorem splitP_ne_nil (p : Char → Bool) (s : List Char) : splitP p s ≠ [] := by
  cases s with
  | nil => simp [splitP]
  | cons c cs =>
    simp only [splitP]
    split
    · simp
    · cases h : splitP p cs with
      | nil => simp
      | cons w ws => simp

theorem splitP_append_delim (p : Char → Bool) (c : Char) (hc : p c = true)
    (a b : List Char) : splitP p (a ++ c :: b) = splitP p a ++ splitP p b := by
  induction a with
  | nil => simp [splitP, hc]
  | cons x a ih =>
    simp only [List.cons_append, splitP, List.append_eq]
    by_cases hx : p x = true
    · simp [hx, ih]
    · simp only [hx]
      rw [ih]
      cases h : splitP p a with
      | nil => exact absurd h (splitP_ne_nil p a)
      | cons w ws => simp

theorem wordsOf_nil : wordsOf [] = [] := by
  simp [wordsOf, splitP]

theorem wordsOf_append_delim (c : Char) (hc : isWordChar c = false)
    (a b : List Char) : wordsOf (a ++ c :: b) = wordsOf a ++ wordsOf b := by
  unfold wordsOf
  rw [splitP_append_delim (fun c => !isWordChar c) c (by simp [hc]) a b,
    List.filter_append]

theorem wordsOf_cons_delim (c : Char) (hc : isWordChar c = false)
    (b : List Char) : wordsOf (c :: b) = wordsOf b := by
  have h := wordsOf_append_delim c hc [] b
  simpa [wordsOf_nil] using h

theorem wordsOf_append_delim_nil (c : Char) (hc : isWordChar c = false)
    (a : List Char) : wordsOf (a ++ [c]) = wordsOf a := by
  have h := wordsOf_append_delim c hc a []
  simpa [wordsOf_nil] using h

theorem splitP_structure (p : Char → Bool) (s : List Char) :
    ∃ w ws, splitP p s = w :: ws ∧ (∀ c ∈ w, p c = false) ∧
      ((ws = [] ∧ s = w) ∨
        ∃ d rest, p d = true ∧ s = w ++ d :: rest ∧ splitP p rest = ws) := by
  induction s with
  | nil => exact ⟨[], [], by simp [splitP], by simp, Or.inl ⟨rfl, rfl⟩⟩
  | cons c cs ih =>
    by_cases hc : p c = true
    · refine ⟨[], splitP p cs, by simp [splitP, hc], by simp, ?_⟩
      exact Or.inr ⟨c, cs, hc, by simp, rfl⟩
    · obtain ⟨w, ws, hsplit, hall, hrest⟩ := ih
      refine ⟨c :: w, ws, ?_, ?_, ?_⟩
      · simp [splitP, hc, hsplit]
      · intro x hx
        rcases List.mem_cons.mp hx with h | h
        · subst h; exact Bool.not_eq_true _ ▸ (by simpa using hc)
        · exact hall x h
      · rcases hrest with ⟨h1, h2⟩ | ⟨d, rest, hd, hs, hws⟩
        · exact Or.inl ⟨h1, by simp [h2]⟩
        · exact Or.inr ⟨d, rest, hd, by simp [hs], hws⟩

theorem wordsOf_flatten_splitP_bounded (p : Char → Bool)
    (hp : ∀ c, p c = true → isWordChar c = false) :
    ∀ (n : Nat) (s : List Char), s.length ≤ n →
      ((splitP p s).map wordsOf).flatten = wordsOf s := by
  intro n
  induction n with
  | zero =>
    intro s hs
    have : s = [] := List.eq_nil_of_length_eq_zero (Nat.le_zero.mp hs)
    subst this
    simp [splitP, wordsOf_nil]
  | succ n ih =>
    intro s hs
    obtain ⟨w, ws, hsplit, _, hrest⟩ := splitP_structure p s
    rcases hrest with ⟨h1, h2⟩ | ⟨d, rest, hd, hseq, hws⟩
    · subst h2; simp [hsplit, h1]
    · have hlen : rest.length ≤ n := by
        subst hseq
        simp at hs
        omega
      have ihr := ih rest hlen
      rw [hsplit]
      simp only [List.map_cons, List.flatten_cons]
      rw [hseq, wordsOf_append_delim d (hp d hd) w rest, ← ihr, hws]

theorem wordsOf_flatten_splitP (p : Char → Bool)
    (hp : ∀ c, p c = true → isWordChar c = false) (s : List Char) :
    ((splitP p s).map wordsOf).flatten = wordsOf s :=
  wordsOf_flatten_splitP_bounded p hp s.length s (Nat.le_refl _)

theorem isPySpace_not_word (c : Char) (h : isPySpace c = true) :
    isWordChar c = false := by
  unfold isPySpace at h
  simp only [Bool.or_eq_true, decide_eq_true_eq] at h
  rcases h with ((((h | h) | h) | h) | h) | h
  · subst h; decide
  · subst h; decide
  · subst h; decide
  · subst h; decide
  · have : c = Char.ofNat 11 := by
      rw [← h, Char.ofNat_toNat]
    subst this; decide
  · have : c = Char.ofNat 12 := by
      rw [← h, Char.ofNat_toNat]
    subst this; decide

theorem isSentDelim_not_word (c : Char) (h : isSentDelim c = true) :
    isWordChar c = false := by
  unfold isSentDelim at h
  simp only [Bool.or_eq_true, decide_eq_true_eq] at h
  rcases h with (h | h) | h <;> (subst h; decide)

theorem isSecDelim_not_word (c : Char) (h : isSecDelim c = true) :
    isWordChar c = false := by
  unfold isSecDelim at h
  simp only [Bool.or_eq_true, decide_eq_true_eq] at h
  rcases h with (h | h) | h <;> (subst h; decide)

theorem wordsOf_joinSp (l : List (List Char)) :
    wordsOf (joinSp l) = (l.map wordsOf).flatten := by
  induction l with
  | nil => simp [joinSp, wordsOf_nil]
  | cons w ws ih =>
    cases ws with
    | nil => simp [joinSp, wordsOf_nil]
    | cons x xs =>
      have hj : joinSp (w :: x :: xs) = w ++ ' ' :: joinSp (x :: xs) := by
        simp [joinSp]
      rw [hj, wordsOf_append_delim ' ' (by decide) w (joinSp (x :: xs)), ih]
      simp

theorem count_tokens_joinSp (l : List (List Char)) :
    count_tokens (joinSp l) = (l.map count_tokens).sum := by
  unfold count_tokens
  rw [wordsOf_joinSp]
  induction l with
  | nil => simp
  | cons w ws ih => simp [ih]

theorem wordsOf_lstrip (s : List Char) : wordsOf (lstrip s) = wordsOf s := by
  unfold lstrip
  induction s with
  | nil => simp
  | cons c cs ih =>
    by_cases hc : isPySpace c = true
    · rw [List.dropWhile_cons_of_pos hc, ih,
        wordsOf_cons_delim c (isPySpace_not_word c hc)]
    · rw [List.dropWhile_cons_of_neg hc]

theorem wordsOf_dropWhile_reverse (u : List Char) :
    wordsOf ((u.dropWhile isPySpace).reverse) = wordsOf u.reverse := by
  induction u with
  | nil => simp
  | cons c cs ih =>
    by_cases hc : isPySpace c = true
    · rw [List.dropWhile_cons_of_pos hc, ih]
      simp only [List.reverse_cons]
      rw [wordsOf_append_delim_nil c (isPySpace_not_word c hc)]
    · rw [List.dropWhile_cons_of_neg hc]

theorem wordsOf_strip (s : List Char) : wordsOf (strip s) = wordsOf s := by
  unfold strip
  rw [wordsOf_dropWhile_reverse (lstrip s).reverse, List.reverse_reverse,
    wordsOf_lstrip]

/-! ## The chunker (`chunk_text`, src/chunking.py:28-102)

The sentence loop and the part loop are structural recursions; the greedy
word-pack `while words:` loop can fail to make progress, so it carries
explicit fuel and returns `none` when the fuel runs out (modelling
non-termination of the Python loop). -/

/-- Sentence splitting in `chunk_text` (line 43):
stripped, non-empty pieces of `re.split(r'[.!?]+', text)`. -/
def sentencesOf (text : List Char) : List (List Char) :=
  ((splitP isSentDelim text).map strip).filter (fun s => !s.isEmpty)

/-- Part splitting for an oversized sentence (lines 60-64):
stripped, non-empty pieces of `re.split(r'[,;:]', sentence)`. -/
def partsOf (sentence : List Char) : List (List Char) :=
  ((splitP isSecDelim sentence).map strip).filter (fun s => !s.isEmpty)

/-- One pass of the inner `while words and chunk_tokens < max_tokens:` loop
(lines 72-80): returns the words packed into the current chunk and the
remaining words. -/
def packOnceGo (maxTokens : Nat) : Nat → List (List Char) → List (List Char) →
    (List (List Char) × List (List Char))
  | _, [], acc => (acc.reverse, [])
  | ct, w :: ws, acc =>
    if ct < maxTokens then
      if ct + count_tokens w > maxTokens then (acc.reverse, w :: ws)
      else packOnceGo maxTokens (ct + count_tokens w) ws (w :: acc)
    else (acc.reverse, w :: ws)

/-- The outer `while words:` loop of the greedy word-pack fallback
(lines 71-82), with fuel: `none` models the loop running forever. -/
def wordPackLoop (maxTokens : Nat) : Nat → List (List Char) →
    Option (List (List Char))
  | _, [] => some []
  | 0, _ :: _ => none
  | fuel + 1, w :: ws =>
    match packOnceGo maxTokens 0 (w :: ws) [] with
    | (chunk, rest) =>
      match wordPackLoop maxTokens fuel rest with
      | none => none
      | some cs => some (if chunk.isEmpty then cs else joinSp chunk :: cs)

/-- Processing of one stripped part of an oversized sentence
(lines 66-84): word-pack it if it is still too large, otherwise emit it
as a chunk of its own. -/
def processPart (maxTokens fuel : Nat) (part : List Char) :
    Option (List (List Char)) :=
  if count_tokens part > maxTokens then wordPackLoop maxTokens fuel (splitWS part)
  else some [part]

/-- The `for part in parts:` loop (lines 61-84). -/
def processParts (maxTokens fuel : Nat) : List (List Char) →
    Option (List (List Char))
  | [] => some []
  | p :: ps =>
    match processPart maxTokens fuel p, processParts maxTokens fuel ps with
    | some a, some b => some (a ++ b)
    | _, _ => none

/-- The `for sentence in sentences:` loop of `chunk_text` (lines 49-100),
carrying the running chunk `cur` and its token count `ct`, and including
the final flush of lines 99-100. -/
def chunkLoop (maxTokens fuel : Nat) : List (List Char) → List (List Char) →
    Nat → Option (List (List Char))
  | [], cur, _ => some (if cur.isEmpty then [] else [joinSp cur])
  | s :: ss, cur, ct =>
    if count_tokens s > maxTokens then
      match processParts maxTokens fuel (partsOf s),
          chunkLoop maxTokens fuel ss [] 0 with
      | some pcs, some rest =>
        some ((if cur.isEmpty then [] else [joinSp cur]) ++ pcs ++ rest)
      | _, _ => none
    else if ct + count_tokens s > maxTokens then
      match chunkLoop maxTokens fuel ss [s] (count_tokens s) with
      | some rest => some ((if cur.isEmpty then [] else [joinSp cur]) ++ rest)
      | none => none
    else chunkLoop maxTokens fuel ss (cur ++ [s]) (ct + count_tokens s)

/-- `chunk_text` (src/chunking.py:28-102) with fuel for the word-pack
fallback; the final line filters out chunks that strip to the empty
string. -/
def chunk_text (fuel maxTokens : Nat) (text : List Char) :
    Option (List (List Char)) :=
  if text.isEmpty then some []
  else
    match chunkLoop maxTokens fuel (sentencesOf text) [] 0 with
    | none => none
    | some cs => some (cs.filter (fun c => !(strip c).isEmpty))

/-! ### Properties of the word-pack fallback -/

/-- Total estimated token count of a list of fragments. -/
def sumTok (l : List (List Char)) : Nat :=
  (l.map count_tokens).sum

theorem packOnceGo_append (maxTokens : Nat) :
    ∀ (ws acc : List (List Char)) (ct : Nat),
      (packOnceGo maxTokens ct ws acc).1 ++ (packOnceGo maxTokens ct ws acc).2 =
        acc.reverse ++ ws := by
  intro ws
  induction ws with
  | nil => intro acc ct; simp [packOnceGo]
  | cons w ws ih =>
    intro acc ct
    simp only [packOnceGo]
    by_cases h1 : ct < maxTokens
    · simp only [h1, if_true]
      by_cases h2 : ct + count_tokens w > maxTokens
      · simp [h2]
      · simp only [h2, if_false]
        rw [ih (w :: acc) (ct + count_tokens w)]
        simp
    · simp [h1]

theorem sumTok_reverse (l : List (List Char)) : sumTok l.reverse = sumTok l := by
  simp [sumTok, List.sum_reverse]

theorem packOnceGo_sum_le (maxTokens : Nat) :
    ∀ (ws acc : List (List Char)) (ct : Nat), ct ≤ maxTokens →
      sumTok acc = ct → sumTok (packOnceGo maxTokens ct ws acc).1 ≤ maxTokens := by
  intro ws
  induction ws with
  | nil =>
    intro acc ct hle hsum
    show sumTok acc.reverse ≤ maxTokens
    rw [sumTok_reverse, hsum]
    exact hle
  | cons w ws ih =>
    intro acc ct hle hsum
    by_cases h1 : ct < maxTokens
    · by_cases h2 : ct + count_tokens w > maxTokens
      · have heq : packOnceGo maxTokens ct (w :: ws) acc = (acc.reverse, w :: ws) := by
          simp [packOnceGo, h1, h2]
        rw [heq]
        rw [show (acc.reverse, w :: ws).1 = acc.reverse from rfl, sumTok_reverse, hsum]
        exact hle
      · have heq : packOnceGo maxTokens ct (w :: ws) acc =
            packOnceGo maxTokens (ct + count_tokens w) ws (w :: acc) := by
          simp [packOnceGo, h1, h2]
        rw [heq]
        refine ih (w :: acc) (ct + count_tokens w) (by omega) ?_
        unfold sumTok at hsum ⊢
        simp [hsum]
        omega
    · have heq : packOnceGo maxTokens ct (w :: ws) acc = (acc.reverse, w :: ws) := by
        simp [packOnceGo, h1]
      rw [heq]
      rw [show (acc.reverse, w :: ws).1 = acc.reverse from rfl, sumTok_reverse, hsum]
      exact hle

theorem wordPackLoop_bound (maxTokens : Nat) :
    ∀ (fuel : Nat) (ws cs : List (List Char)),
      wordPackLoop maxTokens fuel ws = some cs →
      ∀ c ∈ cs, count_tokens c ≤ maxTokens := by
  intro fuel
  induction fuel with
  | zero =>
    intro ws cs h
    cases ws with
    | nil => simp [wordPackLoop] at h; subst h; simp
    | cons w ws => simp [wordPackLoop] at h
  | succ fuel ih =>
    intro ws cs h
    cases ws with
    | nil => simp [wordPackLoop] at h; subst h; simp
    | cons w ws =>
      simp only [wordPackLoop] at h
      cases hrec : wordPackLoop maxTokens fuel
          (packOnceGo maxTokens 0 (w :: ws) []).2 with
      | none => rw [hrec] at h; simp at h
      | some cs' =>
        rw [hrec] at h
        simp only [Option.some.injEq] at h
        subst h
        intro c hc
        by_cases hemp : (packOnceGo maxTokens 0 (w :: ws) []).1.isEmpty
        · simp only [hemp, if_true] at hc
          exact ih _ cs' hrec c hc
        · simp only [hemp, if_false] at hc
          rcases List.mem_cons.mp hc with h | h
          · subst h
            rw [count_tokens_joinSp]
            exact packOnceGo_sum_le maxTokens (w :: ws) [] 0 (Nat.zero_le _)
              (by simp [sumTok])
          · exact ih _ cs' hrec c h

theorem wordPackLoop_words (maxTokens : Nat) :
    ∀ (fuel : Nat) (ws cs : List (List Char)),
      wordPackLoop maxTokens fuel ws = some cs →
      (cs.map wordsOf).flatten = (ws.map wordsOf).flatten := by
  intro fuel
  induction fuel with
  | zero =>
    intro ws cs h
    cases ws with
    | nil => simp [wordPackLoop] at h; subst h; simp
    | cons w ws => simp [wordPackLoop] at h
  | succ fuel ih =>
    intro ws cs h
    cases ws with
    | nil => simp [wordPackLoop] at h; subst h; simp
    | cons w ws =>
      simp only [wordPackLoop] at h
      cases hrec : wordPackLoop maxTokens fuel
          (packOnceGo maxTokens 0 (w :: ws) []).2 with
      | none => rw [hrec] at h; simp at h
      | some cs' =>
        rw [hrec] at h
        simp only [Option.some.injEq] at h
        subst h
        have happ := packOnceGo_append maxTokens (w :: ws) [] 0
        have hsplit : ((packOnceGo maxTokens 0 (w :: ws) []).1.map
              wordsOf).flatten ++
            ((packOnceGo maxTokens 0 (w :: ws) []).2.map wordsOf).flatten =
            ((w :: ws).map wordsOf).flatten := by
          rw [← List.flatten_append, ← List.map_append, happ]
          simp
        by_cases hemp : (packOnceGo maxTokens 0 (w :: ws) []).1.isEmpty
        · simp only [hemp, if_true]
          have h1 : (packOnceGo maxTokens 0 (w :: ws) []).1 = [] := by
            simpa using hemp
          rw [ih _ cs' hrec]
          rw [h1] at hsplit
          simpa using hsplit
        · simp only [hemp, Bool.false_eq_true, if_false]
          simp only [List.map_cons, List.flatten_cons]
          rw [wordsOf_joinSp, ih _ cs' hrec]
          simpa using hsplit

/-! ### Word preservation through splitting, stripping and filtering -/

theorem flatten_map_wordsOf_filter_nonempty (l : List (List Char)) :
    (((l.filter (fun s => !s.isEmpty)).map wordsOf)).flatten =
      (l.map wordsOf).flatten := by
  induction l with
  | nil => simp
  | cons s ss ih =>
    by_cases hs : s.isEmpty
    · have hnil : s = [] := by simpa using hs
      simp [hs, hnil, wordsOf_nil, ih]
    · simp [hs, ih]

theorem flatten_map_wordsOf_filter_strip (l : List (List Char)) :
    (((l.filter (fun s => !(strip s).isEmpty)).map wordsOf)).flatten =
      (l.map wordsOf).flatten := by
  induction l with
  | nil => simp
  | cons s ss ih =>
    by_cases hs : (strip s).isEmpty
    · have hnil : strip s = [] := by simpa using hs
      have hw : wordsOf s = [] := by
        rw [← wordsOf_strip s, hnil, wordsOf_nil]
      simp [hs, hw, ih]
    · simp [hs, ih]

theorem flatten_map_wordsOf_map_strip (l : List (List Char)) :
    ((l.map strip).map wordsOf).flatten = (l.map wordsOf).flatten := by
  induction l with
  | nil => simp
  | cons s ss ih =>
    simp only [List.map_cons, List.flatten_cons, wordsOf_strip]
    rw [ih]

theorem sentencesOf_words (text : List Char) :
    ((sentencesOf text).map wordsOf).flatten = wordsOf text := by
  unfold sentencesOf
  rw [flatten_map_wordsOf_filter_nonempty, flatten_map_wordsOf_map_strip,
    wordsOf_flatten_splitP isSentDelim isSentDelim_not_word]

theorem partsOf_words (sentence : List Char) :
    ((partsOf sentence).map wordsOf).flatten = wordsOf sentence := by
  unfold partsOf
  rw [flatten_map_wordsOf_filter_nonempty, flatten_map_wordsOf_map_strip,
    wordsOf_flatten_splitP isSecDelim isSecDelim_not_word]

theorem splitWS_words (s : List Char) :
    ((splitWS s).map wordsOf).flatten = wordsOf s := by
  unfold splitWS
  rw [flatten_map_wordsOf_filter_nonempty,
    wordsOf_flatten_splitP isPySpace isPySpace_not_word]

/-! ### Properties of the part and sentence loops -/

theorem processPart_bound (maxTokens fuel : Nat) (part : List Char)
    (cs : List (List Char)) (h : processPart maxTokens fuel part = some cs) :
    ∀ c ∈ cs, count_tokens c ≤ maxTokens := by
  unfold processPart at h
  by_cases hbig : count_tokens part > maxTokens
  · rw [if_pos hbig] at h
    exact wordPackLoop_bound maxTokens fuel (splitWS part) cs h
  · rw [if_neg hbig] at h
    simp only [Option.some.injEq] at h
    subst h
    intro c hc
    simp only [List.mem_singleton] at hc
    subst hc
    omega

theorem processPart_words (maxTokens fuel : Nat) (part : List Char)
    (cs : List (List Char)) (h : processPart maxTokens fuel part = some cs) :
    (cs.map wordsOf).flatten = wordsOf part := by
  unfold processPart at h
  by_cases hbig : count_tokens part > maxTokens
  · rw [if_pos hbig] at h
    rw [wordPackLoop_words maxTokens fuel (splitWS part) cs h, splitWS_words]
  · rw [if_neg hbig] at h
    simp only [Option.some.injEq] at h
    subst h
    simp

theorem processParts_bound (maxTokens fuel : Nat) :
    ∀ (ps cs : List (List Char)),
      processParts maxTokens fuel ps = some cs →
      ∀ c ∈ cs, count_tokens c ≤ maxTokens := by
  intro ps
  induction ps with
  | nil =>
    intro cs h
    simp only [processParts, Option.some.injEq] at h
    subst h
    simp
  | cons p ps ih =>
    intro cs h
    simp only [processParts] at h
    cases ha : processPart maxTokens fuel p with
    | none => rw [ha] at h; simp at h
    | some a =>
      cases hb : processParts maxTokens fuel ps with
      | none => rw [ha, hb] at h; simp at h
      | some b =>
        rw [ha, hb] at h
        simp only [Option.some.injEq] at h
        subst h
        intro c hc
        rcases List.mem_append.mp hc with h | h
        · exact processPart_bound maxTokens fuel p a ha c h
        · exact ih b hb c h

theorem processParts_words (maxTokens fuel : Nat) :
    ∀ (ps cs : List (List Char)),
      processParts maxTokens fuel ps = some cs →
      (cs.map wordsOf).flatten = (ps.map wordsOf).flatten := by
  intro ps
  induction ps with
  | nil =>
    intro cs h
    simp only [processParts, Option.some.injEq] at h
    subst h
    simp
  | cons p ps ih =>
    intro cs h
    simp only [processParts] at h
    cases ha : processPart maxTokens fuel p with
    | none => rw [ha] at h; simp at h
    | some a =>
      cases hb : processParts maxTokens fuel ps with
      | none => rw [ha, hb] at h; simp at h
      | some b =>
        rw [ha, hb] at h
        simp only [Option.some.injEq] at h
        subst h
        simp only [List.map_append, List.flatten_append, List.map_cons,
          List.flatten_cons]
        rw [processPart_words maxTokens fuel p a ha, ih b hb]

theorem flush_bound (maxTokens ct : Nat) (cur : List (List Char))
    (hsum : sumTok cur = ct) (hle : ct ≤ maxTokens) :
    ∀ c ∈ (if cur.isEmpty then ([] : List (List Char)) else [joinSp cur]),
      count_tokens c ≤ maxTokens := by
  intro c hc
  by_cases hemp : cur.isEmpty
  · simp [hemp] at hc
  · simp only [hemp, Bool.false_eq_true, if_false, List.mem_singleton] at hc
    subst hc
    rw [count_tokens_joinSp]
    unfold sumTok at hsum
    omega

theorem flush_words (cur : List (List Char)) :
    (((if cur.isEmpty then ([] : List (List Char)) else [joinSp cur])).map
        wordsOf).flatten = (cur.map wordsOf).flatten := by
  by_cases hemp : cur.isEmpty
  · have : cur = [] := by simpa using hemp
    simp [hemp, this]
  · simp only [hemp, Bool.false_eq_true, if_false, List.map_cons,
      List.map_nil, List.flatten_cons, List.flatten_nil, List.append_nil]
    rw [wordsOf_joinSp]

theorem chunkLoop_bound (maxTokens fuel : Nat) :
    ∀ (ss cur : List (List Char)) (ct : Nat) (cs : List (List Char)),
      sumTok cur = ct → ct ≤ maxTokens →
      chunkLoop maxTokens fuel ss cur ct = some cs →
      ∀ c ∈ cs, count_tokens c ≤ maxTokens := by
  intro ss
  induction ss with
  | nil =>
    intro cur ct cs hsum hle h
    simp only [chunkLoop, Option.some.injEq] at h
    subst h
    exact flush_bound maxTokens ct cur hsum hle
  | cons s ss ih =>
    intro cur ct cs hsum hle h
    simp only [chunkLoop] at h
    by_cases h1 : count_tokens s > maxTokens
    · rw [if_pos h1] at h
      cases hp : processParts maxTokens fuel (partsOf s) with
      | none => rw [hp] at h; simp at h
      | some pcs =>
        cases hr : chunkLoop maxTokens fuel ss [] 0 with
        | none => rw [hp, hr] at h; simp at h
        | some rest =>
          rw [hp, hr] at h
          simp only [Option.some.injEq] at h
          subst h
          intro c hc
          rcases List.mem_append.mp hc with hc' | hc'
          · rcases List.mem_append.mp hc' with hc'' | hc''
            · exact flush_bound maxTokens ct cur hsum hle c hc''
            · exact processParts_bound maxTokens fuel (partsOf s) pcs hp c hc''
          · exact ih [] 0 rest (by simp [sumTok]) (Nat.zero_le _) hr c hc'
    · rw [if_neg h1] at h
      by_cases h2 : ct + count_tokens s > maxTokens
      · rw [if_pos h2] at h
        cases hr : chunkLoop maxTokens fuel ss [s] (count_tokens s) with
        | none => rw [hr] at h; simp at h
        | some rest =>
          rw [hr] at h
          simp only [Option.some.injEq] at h
          subst h
          intro c hc
          rcases List.mem_append.mp hc with hc' | hc'
          · exact flush_bound maxTokens ct cur hsum hle c hc'
          · exact ih [s] (count_tokens s) rest (by simp [sumTok]) (by omega)
              hr c hc'
      · rw [if_neg h2] at h
        exact ih (cur ++ [s]) (ct + count_tokens s) cs
          (by unfold sumTok at hsum ⊢; simp [hsum]) (by omega) h

theorem chunkLoop_words (maxTokens fuel : Nat) :
    ∀ (ss cur : List (List Char)) (ct : Nat) (cs : List (List Char)),
      chunkLoop maxTokens fuel ss cur ct = some cs →
      (cs.map wordsOf).flatten =
        (cur.map wordsOf).flatten ++ (ss.map wordsOf).flatten := by
  intro ss
  induction ss with
  | nil =>
    intro cur ct cs h
    simp only [chunkLoop, Option.some.injEq] at h
    subst h
    rw [flush_words cur]
    simp
  | cons s ss ih =>
    intro cur ct cs h
    simp only [chunkLoop] at h
    by_cases h1 : count_tokens s > maxTokens
    · rw [if_pos h1] at h
      cases hp : processParts maxTokens fuel (partsOf s) with
      | none => rw [hp] at h; simp at h
      | some pcs =>
        cases hr : chunkLoop maxTokens fuel ss [] 0 with
        | none => rw [hp, hr] at h; simp at h
        | some rest =>
          rw [hp, hr] at h
          simp only [Option.some.injEq] at h
          subst h
          simp only [List.map_append, List.flatten_append]
          rw [flush_words cur, processParts_words maxTokens fuel (partsOf s)
            pcs hp, partsOf_words, ih [] 0 rest hr]
          simp
    · rw [if_neg h1] at h
      by_cases h2 : ct + count_tokens s > maxTokens
      · rw [if_pos h2] at h
        cases hr : chunkLoop maxTokens fuel ss [s] (count_tokens s) with
        | none => rw [hr] at h; simp at h
        | some rest =>
          rw [hr] at h
          simp only [Option.some.injEq] at h
          subst h
          simp only [List.map_append, List.flatten_append]
          rw [flush_words cur, ih [s] (count_tokens s) rest hr]
          simp
      · rw [if_neg h2] at h
        have := ih (cur ++ [s]) (ct + count_tokens s) cs h
        rw [this]
        simp

/-! ## Claim theorems for the chunker -/

theorem wordPackLoop_ab_stuck :
    ∀ fuel, wordPackLoop 1 fuel [['a', '-', 'b']] = none := by
  intro fuel
  induction fuel with
  | zero => rfl
  | succ fuel ih =>
    have hpack : (packOnceGo 1 0 [['a', '-', 'b']] []).2 = [['a', '-', 'b']] := by
      decide
    simp only [wordPackLoop]
    rw [hpack, ih]

/-- C6: the claim asserts that `chunk_text` always terminates, in particular
that the greedy word-pack fallback loop always makes progress.  It does not:
on the single whitespace-free word "a-b" with `max_tokens = 1` the inner
loop packs no word (the first word alone exceeds the budget), the chunk is
empty, no word is consumed, and the outer `while words:` loop runs forever.
Formally, the fuelled embedding returns `none` for every amount of fuel. -/
theorem c6_wordpack_nontermination :
    ∀ fuel, chunk_text fuel 1 ['a', '-', 'b'] = none := by
  intro fuel
  unfold chunk_text
  rw [if_neg (by decide)]
  have hsent : sentencesOf ['a', '-', 'b'] = [['a', '-', 'b']] := by decide
  rw [hsent]
  simp only [chunkLoop]
  rw [if_pos (by decide)]
  have hparts : partsOf ['a', '-', 'b'] = [['a', '-', 'b']] := by decide
  rw [hparts]
  simp only [processParts, processPart]
  rw [if_pos (by decide)]
  have hsplitws : splitWS ['a', '-', 'b'] = [['a', '-', 'b']] := by decide
  rw [hsplitws, wordPackLoop_ab_stuck fuel]

/-- C7: whenever `chunk_text` terminates (the fuelled embedding returns a
result), every returned chunk has estimated token count at most
`max_tokens` and no returned chunk is the empty string. -/
theorem c7_chunk_bound_nonempty (text : List Char) (maxTokens fuel : Nat)
    (_hmax : 1 ≤ maxTokens) (chunks : List (List Char))
    (h : chunk_text fuel maxTokens text = some chunks) :
    ∀ c ∈ chunks, count_tokens c ≤ maxTokens ∧ c ≠ [] := by
  unfold chunk_text at h
  by_cases hemp : text.isEmpty
  · rw [if_pos hemp] at h
    simp only [Option.some.injEq] at h
    subst h
    simp
  · rw [if_neg hemp] at h
    cases hcl : chunkLoop maxTokens fuel (sentencesOf text) [] 0 with
    | none => rw [hcl] at h; simp at h
    | some cs =>
      rw [hcl] at h
      simp only [Option.some.injEq] at h
      subst h
      intro c hc
      have hmem := List.mem_filter.mp hc
      refine ⟨chunkLoop_bound maxTokens fuel (sentencesOf text) [] 0 cs
        (by simp [sumTok]) (Nat.zero_le _) hcl c hmem.1, ?_⟩
      intro hnil
      subst hnil
      simp [strip, lstrip] at hmem

/-- Witness for C7 at `chunk_text 1 2 "ab cd. ef" = some ["ab cd", "ef"]`. -/
theorem c7_witness :
    count_tokens ['a', 'b', ' ', 'c', 'd'] ≤ 2 ∧ ['a', 'b', ' ', 'c', 'd'] ≠ [] :=
  c7_chunk_bound_nonempty ['a', 'b', ' ', 'c', 'd', '.', ' ', 'e', 'f'] 2 1
    (by decide) [['a', 'b', ' ', 'c', 'd'], ['e', 'f']] (by decide)
    ['a', 'b', ' ', 'c', 'd'] (by decide)

/-- Whitespace normalization: collapse whitespace runs to single spaces and
trim both ends; two texts differ "only by whitespace normalization" iff
they have the same image under this map. -/
def normWS (s : List Char) : List Char :=
  joinSp (splitWS s)

/-- C8 counterexample: on the input "a.b" (any `max_tokens`, here 500) the
chunker returns the single chunk "a b"; the sentence delimiter '.' has been
dropped, so the concatenation of the chunks differs from the original text
by more than whitespace normalization. -/
theorem c8_counterexample :
    chunk_text 1 500 ['a', '.', 'b'] = some [['a', ' ', 'b']] ∧
      normWS (joinSp [['a', ' ', 'b']]) ≠ normWS ['a', '.', 'b'] := by
  constructor
  · decide
  · decide

/-- C8 amended: whenever `chunk_text` terminates, concatenating the chunks
in order preserves exactly the sequence of `\w+` word tokens of the original
text (punctuation in the classes `[.!?]` and `[,;:]` may be dropped, so
full text round-tripping up to whitespace normalization does not hold). -/
theorem c8_words_preserved (text : List Char) (maxTokens fuel : Nat)
    (chunks : List (List Char))
    (h : chunk_text fuel maxTokens text = some chunks) :
    wordsOf (joinSp chunks) = wordsOf text := by
  unfold chunk_text at h
  by_cases hemp : text.isEmpty
  · rw [if_pos hemp] at h
    simp only [Option.some.injEq] at h
    subst h
    have : text = [] := by simpa using hemp
    subst this
    simp [joinSp, wordsOf_nil]
  · rw [if_neg hemp] at h
    cases hcl : chunkLoop maxTokens fuel (sentencesOf text) [] 0 with
    | none => rw [hcl] at h; simp at h
    | some cs =>
      rw [hcl] at h
      simp only [Option.some.injEq] at h
      subst h
      rw [wordsOf_joinSp, flatten_map_wordsOf_filter_strip,
        chunkLoop_words maxTokens fuel (sentencesOf text) [] 0 cs hcl]
      simp only [List.map_nil, List.flatten_nil, List.nil_append]
      exact sentencesOf_words text

/-- Witness for C8 at `chunk_text 1 500 "a.b" = some ["a b"]`. -/
theorem c8_witness :
    wordsOf (joinSp [['a', ' ', 'b']]) = wordsOf ['a', '.', 'b'] :=
  c8_words_preserved ['a', '.', 'b'] 500 1 [['a', ' ', 'b']] (by decide)

/-! ## Conversation store (src/conversation.py)

Timestamps (Python floats from `time.time()`) are rationals and are passed
explicitly as `now`.  Conversation ids are `Nat`.  The manager state keeps
both the in-memory map (`conversations`) and the durable records written by
`save` (`storage`), each as an association list keyed by id. -/

inductive Role
  | user
  | assistant
  | system
deriving DecidableEq

/-- `Message` (src/conversation.py:15-21).  The claims do not inspect
message metadata, which is therefore omitted. -/
structure Msg where
  role : Role
  content : List Char
  timestamp : ℚ
deriving DecidableEq

/-- `Conversation` (src/conversation.py:23-32); `max_messages` defaults
to 50. -/
structure Conversation where
  id : Nat
  messages : List Msg
  maxMessages : Nat
  createdAt : ℚ
  lastUpdated : ℚ
deriving DecidableEq

/-- Python list slicing `l[-k:]`: for `k > 0` the last `min k (length l)`
elements; for `k = 0` the whole list (Python reads `l[-0:]` as `l[0:]`). -/
def pySliceLast (k : Nat) (l : List α) : List α :=
  if k = 0 then l else l.drop (l.length - k)

/-- `Conversation._prune_history` (src/conversation.py:54-57). -/
def pruneHistory (conv : Conversation) : Conversation :=
  if conv.messages.length > conv.maxMessages then
    { conv with messages := pySliceLast conv.maxMessages conv.messages }
  else conv

/-- `Conversation.add_message` (src/conversation.py:34-43): append, set
`last_updated`, prune; the `save()` call is modelled at the manager level
where the durable state lives. -/
def Conversation.add_message (conv : Conversation) (role : Role)
    (content : List Char) (now : ℚ) : Conversation :=
  pruneHistory { conv with
    messages := conv.messages ++ [⟨role, content, now⟩],
    lastUpdated := now }

/-- `Conversation.get_messages` (src/conversation.py:45-48): Python's
`self.messages[-limit:] if limit else self.messages`, projected to
role/content dictionaries; `limit = None` and `limit = 0` are both falsy
and return the whole list. -/
def Conversation.get_messages (conv : Conversation) (limit : Option Nat) :
    List (Role × List Char) :=
  match limit with
  | none => conv.messages.map (fun m => (m.role, m.content))
  | some n =>
    if n = 0 then conv.messages.map (fun m => (m.role, m.content))
    else (pySliceLast n conv.messages).map (fun m => (m.role, m.content))

/-- `Conversation.get_context_window` (src/conversation.py:50-52). -/
def Conversation.get_context_window (conv : Conversation)
    (windowSize : Nat) : List (Role × List Char) :=
  conv.get_messages (some windowSize)

/-- `ConversationManager` state (src/conversation.py:136-141):
in-memory map plus the per-conversation JSON files on disk. -/
structure ConversationManager where
  conversations : List (Nat × Conversation)
  storage : List (Nat × Conversation)
deriving DecidableEq

/-- Dictionary lookup `self.conversations.get(conversation_id)`. -/
def lookupConv (l : List (Nat × Conversation)) (id : Nat) :
    Option Conversation :=
  (l.find? (fun p => p.1 == id)).map Prod.snd

/-- Dictionary/file update: set the entry for `id` (overwriting any
existing entry). -/
def setConv : List (Nat × Conversation) → Nat → Conversation →
    List (Nat × Conversation)
  | [], id, c => [(id, c)]
  | p :: ps, id, c => if p.1 == id then (id, c) :: ps else p :: setConv ps id c

/-- Dictionary/file deletion for `id`. -/
def removeConv (l : List (Nat × Conversation)) (id : Nat) :
    List (Nat × Conversation) :=
  l.filter (fun p => !(p.1 == id))

/-- `ConversationManager.add_message` (src/conversation.py:175-181):
a no-op for an unknown id; otherwise `Conversation.add_message` followed by
`save`, which rewrites the conversation's durable record. -/
def ConversationManager.add_message (mgr : ConversationManager) (id : Nat)
    (role : Role) (content : List Char) (now : ℚ) : ConversationManager :=
  match lookupConv mgr.conversations id with
  | none => mgr
  | some conv =>
    let conv' := conv.add_message role content now
    { conversations := setConv mgr.conversations id conv',
      storage := setConv mgr.storage id conv' }

/-- `save_conversation` (src/conversation.py:226-269): gets or creates the
conversation, appends the user message and then the assistant response
directly to `conversation.messages` (no pruning, and the `last_updated`
field of the dataclass is not touched - only the metadata dictionary is),
then writes the durable record. -/
def save_conversation (mgr : ConversationManager) (convId : Nat)
    (query response : List Char) (now : ℚ) : ConversationManager :=
  let conv :=
    match lookupConv mgr.conversations convId with
    | some c => c
    | none => { id := convId, messages := [], maxMessages := 50,
                createdAt := now, lastUpdated := now }
  let conv' := { conv with
    messages := conv.messages ++
      [⟨Role.user, query, now⟩, ⟨Role.assistant, response, now⟩] }
  { conversations := setConv mgr.conversations convId conv',
    storage := setConv mgr.storage convId conv' }

/-- A Python runtime value appearing in an order comparison in
`cleanup_old_conversations`: a float (`time.time()` result) or a
`datetime.datetime`.  Python 3 raises `TypeError` when `<` compares a
float with a datetime. -/
inductive TimeVal
  | float (q : ℚ)
  | datetime (q : ℚ)

inductive PyError
  | typeError
deriving DecidableEq

/-- Python `<` on float/datetime values. -/
def pyLtTime : TimeVal → TimeVal → Except PyError Bool
  | TimeVal.float a, TimeVal.float b => Except.ok (decide (a < b))
  | TimeVal.datetime a, TimeVal.datetime b => Except.ok (decide (a < b))
  | _, _ => Except.error PyError.typeError

/-- The `for conv_id, conv in self.conversations.items():` loop of
`cleanup_old_conversations` (src/conversation.py:197-203): collects ids to
remove, unlinking each file as it goes; a raised `TypeError` aborts the
whole loop. -/
def cleanupLoop (cutoff : TimeVal) :
    List (Nat × Conversation) → List (Nat × Conversation) →
    Except PyError (List Nat × List (Nat × Conversation))
  | [], storage => Except.ok ([], storage)
  | (id, conv) :: rest, storage =>
    match pyLtTime (TimeVal.float conv.lastUpdated) cutoff with
    | Except.error e => Except.error e
    | Except.ok b =>
      match cleanupLoop cutoff rest
          (if b then removeConv storage id else storage) with
      | Except.error e => Except.error e
      | Except.ok (ids, st) => Except.ok ((if b then id :: ids else ids), st)

/-- `ConversationManager.cleanup_old_conversations`
(src/conversation.py:192-207): the cutoff is `datetime.now() -
timedelta(days=days_old)`, a datetime, while each `conv.last_updated` is a
float; an exception propagates to the caller and the in-memory map is not
touched. -/
def ConversationManager.cleanup_old_conversations
    (mgr : ConversationManager) (daysOld : Nat) (now : ℚ) :
    Except PyError ConversationManager :=
  let cutoff := TimeVal.datetime (now - daysOld * 86400)
  match cleanupLoop cutoff mgr.conversations mgr.storage with
  | Except.error e => Except.error e
  | Except.ok (ids, st) =>
    Except.ok
      { conversations :=
          mgr.conversations.filter (fun p => !(ids.contains p.1)),
        storage := st }

/-! ### Helper lemmas for the conversation store -/

theorem pruneHistory_messages (conv : Conversation) :
    (pruneHistory conv).messages =
      if conv.messages.length > conv.maxMessages
      then pySliceLast conv.maxMessages conv.messages
      else conv.messages := by
  unfold pruneHistory
  split <;> rfl

theorem add_message_messages (conv : Conversation) (role : Role)
    (content : List Char) (now : ℚ) :
    (conv.add_message role content now).messages =
      if conv.messages.length + 1 > conv.maxMessages
      then pySliceLast conv.maxMessages
        (conv.messages ++ [⟨role, content, now⟩])
      else conv.messages ++ [⟨role, content, now⟩] := by
  unfold Conversation.add_message
  rw [pruneHistory_messages]
  simp

theorem pySliceLast_length (k : Nat) (l : List α) (hk : k ≠ 0) :
    (pySliceLast k l).length = min k l.length := by
  unfold pySliceLast
  rw [if_neg hk]
  rw [List.length_drop]
  omega

theorem pySliceLast_suffix (k : Nat) (l : List α) : pySliceLast k l <:+ l := by
  unfold pySliceLast
  split
  · exact List.suffix_refl l
  · exact List.drop_suffix _ l

theorem pySliceLast_concat_getLast (k : Nat) (l : List α) (m : α) :
    (pySliceLast k (l ++ [m])).getLast? = some m := by
  unfold pySliceLast
  by_cases hk : k = 0
  · rw [if_pos hk]
    exact List.getLast?_concat l
  · rw [if_neg hk]
    rw [List.drop_append_of_le_length (by simp; omega)]
    exact List.getLast?_concat _

theorem add_message_getLast (conv : Conversation) (role : Role)
    (content : List Char) (now : ℚ) :
    (conv.add_message role content now).messages.getLast? =
      some ⟨role, content, now⟩ := by
  rw [add_message_messages]
  split
  · exact pySliceLast_concat_getLast _ _ _
  · exact List.getLast?_concat _

theorem lookupConv_setConv (l : List (Nat × Conversation)) (id : Nat)
    (c : Conversation) : lookupConv (setConv l id c) id = some c := by
  induction l with
  | nil => simp [setConv, lookupConv]
  | cons p ps ih =>
    unfold setConv
    by_cases h : (p.1 == id) = true
    · rw [if_pos h]
      unfold lookupConv
      rw [List.find?_cons_of_pos _ (by simp)]
      rfl
    · rw [if_neg h]
      unfold lookupConv at ih ⊢
      rw [List.find?_cons_of_neg _ (by simpa using h)]
      exact ih

/-! ## Chat orchestration (src/chat.py) -/

/-- Environment of one `generate_response` call: the chunks returned by the
injected `get_similar_chunks` (their metadata text) and the completion
provider's outcome (`none` models the OpenAI call raising). -/
structure ChatEnv where
  contextChunks : List (List Char)
  completion : Option (List Char)

/-- `generate_response` (src/chat.py:20-131): fetch-or-create the
conversation, retrieve context, append the user message (line 62, with
persistence, BEFORE the completion call at line 105), then call the
completion provider; on success append the assistant reply, on any raised
exception return `None` (line 131) with the state as already mutated. -/
def generate_response (mgr : ConversationManager) (env : ChatEnv)
    (query : List Char) (conversationId : Nat) (now : ℚ) :
    Option (List Char) × ConversationManager :=
  let conv :=
    match lookupConv mgr.conversations conversationId with
    | some c => c
    | none => { id := conversationId, messages := [], maxMessages := 50,
                createdAt := now, lastUpdated := now }
  let conv1 := conv.add_message Role.user query now
  let mgr1 : ConversationManager :=
    { conversations := setConv mgr.conversations conversationId conv1,
      storage := setConv mgr.storage conversationId conv1 }
  match env.completion with
  | none => (none, mgr1)
  | some reply =>
    let conv2 := conv1.add_message Role.assistant reply now
    (some reply,
      { conversations := setConv mgr1.conversations conversationId conv2,
        storage := setConv mgr1.storage conversationId conv2 })

/-! ## Claim theorems for the conversation store and chat orchestration -/

/-- The empty manager state (fresh store, no conversations on disk). -/
def mgrEmpty : ConversationManager :=
  { conversations := [], storage := [] }

/-- An environment whose completion provider call fails. -/
def envFailComp : ChatEnv :=
  { contextChunks := [], completion := none }

/-- C1 counterexample: with a failing completion provider and an initially
absent conversation, `generate_response` leaves behind a one-message
conversation (the user's turn), both in memory and in durable storage;
the message list is not "exactly what it was before the request". -/
theorem c1_counterexample :
    (generate_response mgrEmpty envFailComp ['h', 'i'] 1 0).1 = none ∧
    lookupConv mgrEmpty.conversations 1 = none ∧
    ((lookupConv (generate_response mgrEmpty envFailComp
        ['h', 'i'] 1 0).2.conversations 1).map
      (fun c => c.messages.length)) = some 1 ∧
    ((lookupConv (generate_response mgrEmpty envFailComp
        ['h', 'i'] 1 0).2.storage 1).map
      (fun c => c.messages.length)) = some 1 := by
  refine ⟨?_, ?_, ?_, ?_⟩ <;> rfl

/-- C1 amended: when the completion provider call fails,
`generate_response` returns `None`, but the user's turn HAS already been
appended and persisted (src/chat.py adds the user message at line 62,
before the completion call at line 105): afterwards the conversation
exists, its last message is the user message, and the durable record
matches the in-memory one.  Only the assistant reply is withheld. -/
theorem c1_completion_failure_records_user_turn (mgr : ConversationManager)
    (env : ChatEnv) (query : List Char) (conversationId : Nat) (now : ℚ)
    (hfail : env.completion = none) :
    (generate_response mgr env query conversationId now).1 = none ∧
    ((lookupConv (generate_response mgr env query
        conversationId now).2.conversations conversationId).map
      (fun c => c.messages.getLast?)) =
      some (some ⟨Role.user, query, now⟩) ∧
    lookupConv (generate_response mgr env query
        conversationId now).2.storage conversationId =
      lookupConv (generate_response mgr env query
        conversationId now).2.conversations conversationId := by
  refine ⟨?_, ?_, ?_⟩
  · simp [generate_response, hfail]
  · simp only [generate_response, hfail]
    rw [lookupConv_setConv]
    simp only [Option.map_some']
    rw [add_message_getLast]
  · simp only [generate_response, hfail]
    rw [lookupConv_setConv, lookupConv_setConv]

/-- Witness for C1 at the empty store, query "hi", id 1, time 0. -/
theorem c1_witness :
    (generate_response mgrEmpty envFailComp ['h', 'i'] 1 0).1 = none ∧
    ((lookupConv (generate_response mgrEmpty envFailComp
        ['h', 'i'] 1 0).2.conversations 1).map
      (fun c => c.messages.getLast?)) =
      some (some ⟨Role.user, ['h', 'i'], 0⟩) ∧
    lookupConv (generate_response mgrEmpty envFailComp
        ['h', 'i'] 1 0).2.storage 1 =
      lookupConv (generate_response mgrEmpty envFailComp
        ['h', 'i'] 1 0).2.conversations 1 :=
  c1_completion_failure_records_user_turn mgrEmpty envFailComp
    ['h', 'i'] 1 0 rfl

/-- A conversation with `max_messages = 1` and no messages yet. -/
def tinyConv : Conversation :=
  { id := 7, messages := [], maxMessages := 1, createdAt := 0,
    lastUpdated := 0 }

/-- C2 counterexample: one mutation through the `save_conversation` path
appends two messages without any pruning, so a conversation with
`max_messages = 1` ends up with 2 messages: `len(messages) ≤ max_messages`
fails after this mutation. -/
theorem c2_counterexample :
    ((lookupConv (save_conversation
        { conversations := [(7, tinyConv)], storage := [(7, tinyConv)] }
        7 ['h', 'i'] ['y', 'o'] 1).conversations 7).map
      (fun c => (c.messages.length, c.maxMessages))) = some (2, 1) ∧
    ¬ ((2 : Nat) ≤ 1) :=
  ⟨rfl, by decide⟩

/-- C2 amended: the `add_message` path does maintain the sliding-window
invariant whenever `max_messages ≥ 1`: after the mutation the message list
has at most `max_messages` entries, is a suffix of the appended list (the
most recently appended messages, in append order), of length
`min max_messages (old length + 1)`.  The `save_conversation` path
performs no pruning and can exceed the bound. -/
theorem c2_add_message_sliding_window (conv : Conversation) (role : Role)
    (content : List Char) (now : ℚ) (hmax : 1 ≤ conv.maxMessages) :
    (conv.add_message role content now).messages.length ≤
      conv.maxMessages ∧
    (conv.add_message role content now).messages <:+
      conv.messages ++ [⟨role, content, now⟩] ∧
    (conv.add_message role content now).messages.length =
      min conv.maxMessages (conv.messages.length + 1) := by
  rw [add_message_messages]
  by_cases h : conv.messages.length + 1 > conv.maxMessages
  · rw [if_pos h]
    have hk : conv.maxMessages ≠ 0 := by omega
    have hlen := pySliceLast_length conv.maxMessages
      (conv.messages ++ [(⟨role, content, now⟩ : Msg)]) hk
    rw [List.length_append] at hlen
    refine ⟨?_, pySliceLast_suffix _ _, ?_⟩
    · rw [hlen]; simp
    · rw [hlen]; simp
  · rw [if_neg h]
    refine ⟨by simp; omega, List.suffix_refl _, by simp; omega⟩

/-- Witness for C2 at `tinyConv` (max 1), appending one user message. -/
theorem c2_witness :
    1 ≤ tinyConv.maxMessages ∧
    ((tinyConv.add_message Role.user ['h', 'i'] 1).messages.length ≤
        tinyConv.maxMessages ∧
      (tinyConv.add_message Role.user ['h', 'i'] 1).messages <:+
        tinyConv.messages ++ [⟨Role.user, ['h', 'i'], 1⟩] ∧
      (tinyConv.add_message Role.user ['h', 'i'] 1).messages.length =
        min tinyConv.maxMessages (tinyConv.messages.length + 1)) :=
  ⟨by decide,
    c2_add_message_sliding_window tinyConv Role.user ['h', 'i'] 1
      (by decide)⟩

/-- A conversation whose `last_updated` (unix seconds 0) is 31 days older
than `now = 2678400`. -/
def oldConvC4 : Conversation :=
  { id := 1, messages := [], maxMessages := 50, createdAt := 0,
    lastUpdated := 0 }

/-- C4 (code bug): `cleanup_old_conversations` compares the float
`conv.last_updated` against the `datetime` cutoff, which raises
`TypeError` in Python 3 on the very first stored conversation, so an old
conversation (31 days old with `days_old = 30`, exactly the repository's
own `test_conversation_cleanup` scenario) is never removed; the call
raises instead of cleaning up. -/
theorem c4_cleanup_type_error :
    ConversationManager.cleanup_old_conversations
        { conversations := [(1, oldConvC4)], storage := [(1, oldConvC4)] }
        30 2678400 = Except.error PyError.typeError ∧
    oldConvC4.lastUpdated < 2678400 - 30 * 86400 := by
  constructor
  · rfl
  · norm_num [oldConvC4]

/-- A conversation holding exactly one message. -/
def convOneMsg : Conversation :=
  { id := 1, messages := [⟨Role.user, ['h', 'i'], 0⟩], maxMessages := 50,
    createdAt := 0, lastUpdated := 0 }

/-- C5 counterexample: `get_messages` treats a window size of 0 as falsy
(`self.messages[-limit:] if limit else self.messages`), so
`context_window(id, 0)` on a one-message conversation returns 1 message,
not `min 0 1 = 0`. -/
theorem c5_counterexample :
    (convOneMsg.get_context_window 0).length = 1 ∧
    ¬ ((convOneMsg.get_context_window 0).length =
        min 0 convOneMsg.messages.length) :=
  ⟨rfl, by decide⟩

/-- C5 amended: for window sizes `N ≥ 1`, `get_context_window` returns
exactly `min N total` messages, as a suffix (chronological order, most
recent retained) of the full projected message list, and on a non-empty
conversation its last element is the most recently appended message. -/
theorem c5_context_window_bound (conv : Conversation) (n : Nat)
    (hn : 1 ≤ n) :
    (conv.get_context_window n).length = min n conv.messages.length ∧
    conv.get_context_window n <:+
      conv.messages.map (fun m => (m.role, m.content)) ∧
    (conv.messages ≠ [] →
      (conv.get_context_window n).getLast? =
        (conv.messages.map (fun m => (m.role, m.content))).getLast?) := by
  have hn0 : n ≠ 0 := by omega
  have hwin : conv.get_context_window n =
      (pySliceLast n conv.messages).map (fun m => (m.role, m.content)) := by
    show (if n = 0 then conv.messages.map (fun m => (m.role, m.content))
      else (pySliceLast n conv.messages).map
        (fun m => (m.role, m.content))) = _
    rw [if_neg hn0]
  rw [hwin]
  refine ⟨?_, ?_, ?_⟩
  · rw [List.length_map, pySliceLast_length n conv.messages hn0]
  · exact (pySliceLast_suffix n conv.messages).map _
  · intro hne
    obtain ⟨front, m, hsplit⟩ :
        ∃ front m, conv.messages = front ++ [m] :=
      ⟨conv.messages.dropLast, conv.messages.getLast hne,
        (List.dropLast_append_getLast hne).symm⟩
    rw [hsplit, List.getLast?_map, List.getLast?_map,
      pySliceLast_concat_getLast, List.getLast?_concat]

/-- Witness for C5 at the one-message conversation with window size 1. -/
theorem c5_witness :
    1 ≤ 1 ∧
    ((convOneMsg.get_context_window 1).length =
        min 1 convOneMsg.messages.length ∧
      convOneMsg.get_context_window 1 <:+
        convOneMsg.messages.map (fun m => (m.role, m.content)) ∧
      (convOneMsg.messages ≠ [] →
        (convOneMsg.get_context_window 1).getLast? =
          (convOneMsg.messages.map
            (fun m => (m.role, m.content))).getLast?)) :=
  ⟨by decide, c5_context_window_bound convOneMsg 1 (by decide)⟩

/-! ## Retrieval (src/vector_db.py, src/query.py)

Similarity scores are Python floats, modelled as rationals.  The external
world of one retrieval call — whether the Pinecone index initialises,
whether the embedding provider succeeds, and the matches the index
returns for the query — is a `RetrievalEnv`. -/

/-- One match returned by the vector index provider: id and score
(metadata is irrelevant to the claims). -/
structure VMatch where
  vid : Nat
  score : ℚ
deriving DecidableEq

/-- `query_similar` (src/vector_db.py:154-190), success path: the provider
matches are post-filtered with `score >= score_threshold`, but only when
`score_threshold > 0` (line 183). -/
def query_similar (providerMatches : List VMatch) (scoreThreshold : ℚ) :
    List VMatch :=
  if scoreThreshold > 0 then
    providerMatches.filter (fun m => decide (scoreThreshold ≤ m.score))
  else providerMatches

/-- The external collaborators of one retrieval call. -/
structure RetrievalEnv where
  indexAvailable : Bool
  embedOk : Bool
  providerMatches : List VMatch
deriving DecidableEq

/-- `embed_query` (src/query.py:12-37): `None` on an empty or
whitespace-only query and on embedding failure; the embedding vector
itself is irrelevant to the claims and is represented by `Unit`. -/
def embed_query (env : RetrievalEnv) (query : List Char) : Option Unit :=
  if (strip query).isEmpty then none
  else if env.embedOk then some () else none

/-- `get_similar_chunks` (src/query.py:39-81): returns `[]` when the index
cannot be initialised (line 60) or the query embedding fails (line 66);
otherwise queries the index through `query_similar` with its default
`score_threshold = 0.0` and applies the unconditional post-filter
`result.get('score', 0) >= score_threshold` (lines 72-75). -/
def get_similar_chunks (env : RetrievalEnv) (query : List Char)
    (scoreThreshold : ℚ) : List VMatch :=
  if !env.indexAvailable then []
  else
    match embed_query env query with
    | none => []
    | some _ =>
      (query_similar env.providerMatches 0).filter
        (fun m => decide (scoreThreshold ≤ m.score))

theorem query_similar_zero (m : List VMatch) : query_similar m 0 = m := by
  simp [query_similar]

theorem query_similar_nil (t : ℚ) : query_similar [] t = [] := by
  unfold query_similar
  split <;> simp

/-- The environment used for C3's concrete scenario: a healthy index and
embedding provider, with the provider returning scores
[0.95, 0.88, 0.92]. -/
def envC3 : RetrievalEnv :=
  { indexAvailable := true, embedOk := true,
    providerMatches := [⟨1, 95/100⟩, ⟨2, 88/100⟩, ⟨3, 92/100⟩] }

/-- C3: on the success path (index up, embedding succeeded), the query
operation returns exactly the provider matches whose score is at least
`score_threshold`, in provider order (the result is a sublist of the
provider list); in particular with scores [0.95, 0.88, 0.92] and
threshold 0.9 it returns exactly the 0.95 and 0.92 matches, in that
order. -/
theorem c3_threshold_post_filter (env : RetrievalEnv) (query : List Char)
    (t : ℚ) (havail : env.indexAvailable = true)
    (hembed : embed_query env query = some ()) :
    (get_similar_chunks env query t).Sublist env.providerMatches ∧
    (∀ m, m ∈ get_similar_chunks env query t ↔
      m ∈ env.providerMatches ∧ t ≤ m.score) ∧
    get_similar_chunks envC3 ['q'] (9/10) =
      [⟨1, 95/100⟩, ⟨3, 92/100⟩] := by
  have hgss : get_similar_chunks env query t =
      env.providerMatches.filter (fun m => decide (t ≤ m.score)) := by
    unfold get_similar_chunks
    rw [havail, hembed, query_similar_zero]
    simp
  refine ⟨?_, ?_, ?_⟩
  · rw [hgss]
    exact List.filter_sublist _
  · intro m
    rw [hgss, List.mem_filter]
    simp
  · have hgss2 : get_similar_chunks envC3 ['q'] (9/10) =
        envC3.providerMatches.filter
          (fun m => decide ((9 : ℚ)/10 ≤ m.score)) := by
      unfold get_similar_chunks
      rw [show (!envC3.indexAvailable) = false from rfl,
        show embed_query envC3 ['q'] = some () from rfl,
        query_similar_zero]
      simp
    rw [hgss2,
      show envC3.providerMatches =
        [⟨1, 95/100⟩, ⟨2, 88/100⟩, ⟨3, 92/100⟩] from rfl]
    rw [List.filter_cons, List.filter_cons, List.filter_cons,
      List.filter_nil]
    rw [show (decide ((9 : ℚ)/10 ≤ (⟨1, 95/100⟩ : VMatch).score)) = true
        from by norm_num]
    rw [show (decide ((9 : ℚ)/10 ≤ (⟨2, 88/100⟩ : VMatch).score)) = false
        from by norm_num]
    rw [show (decide ((9 : ℚ)/10 ≤ (⟨3, 92/100⟩ : VMatch).score)) = true
        from by norm_num]
    simp

/-- Witness for C3: the concrete scenario of the claim, extracted from the
theorem applied to `envC3`. -/
theorem c3_witness :
    get_similar_chunks envC3 ['q'] (9/10) =
      [⟨1, 95/100⟩, ⟨3, 92/100⟩] :=
  (c3_threshold_post_filter envC3 ['q'] (9/10) rfl rfl).2.2

/-- An environment whose vector index is unavailable although the provider
would have returned a high-scoring match. -/
def envIndexDown : RetrievalEnv :=
  { indexAvailable := false, embedOk := true,
    providerMatches := [⟨1, 95/100⟩] }

/-- A healthy environment in which the index simply holds no relevant
vectors. -/
def envNoResults : RetrievalEnv :=
  { indexAvailable := true, embedOk := true, providerMatches := [] }

/-- C9 counterexample: `get_similar_chunks` returns the successful empty
list `[]` both when retrieval fails (index unavailable) and when there are
genuinely no relevant results, and its return type is a plain list, so a
caller cannot distinguish the two cases; no typed failure is propagated. -/
theorem c9_counterexample :
    get_similar_chunks envIndexDown ['q'] (7/10) = [] ∧
    get_similar_chunks envNoResults ['q'] (7/10) = [] ∧
    envIndexDown.indexAvailable = false ∧
    envNoResults.indexAvailable = true := by
  refine ⟨rfl, ?_, rfl, rfl⟩
  unfold get_similar_chunks
  rw [show (!envNoResults.indexAvailable) = false from rfl,
    show embed_query envNoResults ['q'] = some () from rfl,
    show envNoResults.providerMatches = [] from rfl, query_similar_nil]
  simp

/-- C9 amended: every retrieval failure (index unavailable or
query-embedding failure) is swallowed by `get_similar_chunks` into the
successful empty result `[]`; no failure propagates to the caller, so
"no relevant results" and "could not determine results" coincide. -/
theorem c9_failures_return_empty (env : RetrievalEnv) (query : List Char)
    (t : ℚ)
    (hfail : env.indexAvailable = false ∨ embed_query env query = none) :
    get_similar_chunks env query t = [] := by
  unfold get_similar_chunks
  rcases hfail with h | h
  · rw [h]
    simp
  · rw [h]
    split
    · rfl
    · rfl

/-- Witness for C9 at the index-down environment. -/
theorem c9_witness : get_similar_chunks envIndexDown ['q'] (7/10) = [] :=
  c9_failures_return_empty envIndexDown ['q'] (7/10) (Or.inl rfl)

/-! ## Endpoint validation (src/api/main.py, src/api/models.py)

The shape of a request handling run is its trace: which external services
were called, in order, and how the request ended. -/

/-- The external services a request handler can contact. -/
inductive ExtCall
  | vectorIndexInit
  | embedProvider
  | vectorIndexQuery
  | completionProvider
deriving DecidableEq

/-- How a request ends: a 4xx validation rejection or a normal response. -/
inductive Outcome
  | validationError (code : Nat)
  | ok
deriving DecidableEq

/-- A request handling run: external calls made, in order, and outcome. -/
structure RunTrace where
  calls : List ExtCall
  outcome : Outcome
deriving DecidableEq

/-- The external calls made by one `get_similar_chunks` invocation
(src/query.py:55-69): `init_pinecone()` contacts the vector index first
(line 57); only then is the embedding provider contacted — unless
`embed_query` rejects the blank query first (line 24) — and a successful
embedding is followed by the index query (line 69). -/
def gssCalls (env : RetrievalEnv) (query : List Char) : List ExtCall :=
  ExtCall.vectorIndexInit ::
    (if !env.indexAvailable then []
     else if (strip query).isEmpty then []
     else if !env.embedOk then [ExtCall.embedProvider]
     else [ExtCall.embedProvider, ExtCall.vectorIndexQuery])

/-- `query_endpoint` (src/api/main.py:330-356) behind FastAPI validation
of `QueryRequest` (`min_length = 1`, src/api/models.py:16-21): pydantic
rejects the empty string with 422 before the handler runs, and the handler
itself rejects any query that strips to the empty string with 422
(line 333) before calling `get_similar_chunks`. -/
def query_endpoint (env : RetrievalEnv) (query : List Char) : RunTrace :=
  if query.length < 1 then
    { calls := [], outcome := Outcome.validationError 422 }
  else if (strip query).isEmpty then
    { calls := [], outcome := Outcome.validationError 422 }
  else { calls := gssCalls env query, outcome := Outcome.ok }

/-- `chat_endpoint` (src/api/main.py:377-434) behind FastAPI validation of
`ChatRequest` (`min_length = 1`, src/api/models.py:344-351): pydantic
rejects the empty string with 422, but the handler performs no emptiness
check of its own; it calls `get_similar_chunks` (line 385), then
`generate_response` (line 406), which calls `get_similar_chunks` again and
then always reaches the completion provider (src/chat.py:105), and since
`generate_response` converts a completion failure into `None`, the
endpoint responds normally either way. -/
def chat_endpoint (env : RetrievalEnv) (query : List Char) : RunTrace :=
  if query.length < 1 then
    { calls := [], outcome := Outcome.validationError 422 }
  else
    { calls := gssCalls env query ++ gssCalls env query ++
        [ExtCall.completionProvider],
      outcome := Outcome.ok }

/-- C10 counterexample: for the whitespace-only query " " (length 1, so it
passes pydantic's `min_length = 1`), the chat endpoint does NOT fail with
422: it proceeds and makes external calls (two index initialisations and
the completion call), even with the index down. -/
theorem c10_counterexample :
    (strip [' ']).isEmpty = true ∧
    (chat_endpoint envIndexDown [' ']).outcome ≠
      Outcome.validationError 422 ∧
    (chat_endpoint envIndexDown [' ']).calls =
      [ExtCall.vectorIndexInit, ExtCall.vectorIndexInit,
        ExtCall.completionProvider] ∧
    (chat_endpoint envIndexDown [' ']).calls ≠ [] := by
  refine ⟨rfl, ?_, rfl, ?_⟩ <;> decide

/-- C10 amended: a query that strips to the empty string is rejected by
the query endpoint with 422 before any external call, and the empty-string
query is likewise rejected by the chat endpoint with 422 before any
external call (by pydantic `min_length`); but the chat endpoint performs
no whitespace validation of its own (see the counterexample). -/
theorem c10_validation (env : RetrievalEnv) (q qe : List Char)
    (hblank : (strip q).isEmpty = true) (hempty : qe.length = 0) :
    (query_endpoint env q).calls = [] ∧
    (query_endpoint env q).outcome = Outcome.validationError 422 ∧
    (chat_endpoint env qe).calls = [] ∧
    (chat_endpoint env qe).outcome = Outcome.validationError 422 := by
  have hq : query_endpoint env q =
      { calls := [], outcome := Outcome.validationError 422 } := by
    unfold query_endpoint
    by_cases hlen : q.length < 1
    · rw [if_pos hlen]
    · rw [if_neg hlen, if_pos hblank]
  have hc : chat_endpoint env qe =
      { calls := [], outcome := Outcome.validationError 422 } := by
    unfold chat_endpoint
    rw [if_pos (by omega)]
  rw [hq, hc]
  exact ⟨rfl, rfl, rfl, rfl⟩

/-- Witness for C10 at the whitespace query " " and the empty query. -/
theorem c10_witness :
    (query_endpoint envIndexDown [' ']).calls = [] ∧
    (query_endpoint envIndexDown [' ']).outcome =
      Outcome.validationError 422 ∧
    (chat_endpoint envIndexDown []).calls = [] ∧
    (chat_endpoint envIndexDown []).outcome =
      Outcome.validationError 422 :=
  c10_validation envIndexDown [' '] [] (by decide) (by decide)
